import Mathlib

/-!
Verification development for the gitwatcher repository.

The Go sources are shallowly embedded: each external call (go-git, HTTP,
generation backends) is represented by an oracle value carried in an
environment structure, and each embedded function mirrors the control flow
of its Go counterpart, returning its result together with the list of
externally visible events it performs.
-/

set_option maxHeartbeats 1000000

/-- Error taxonomy for the embedded operations.  Constructors correspond to
the distinct `error` productions in the Go sources; message strings are kept
only where a claim depends on them. -/
inductive GErr
  | openFailed
  | worktreeFailed
  | statusFailed
  | headFailed
  | addFailed
  | refNotFound (branch : String)
  | noCommonAncestor
  | sshAuthFailed
  | pushRejected (msg : String)
  | remoteMissing
  | httpSendFailed
  | apiNon200 (body : String)
  | decodeFailed
  | clientFailed
  | noGeminiResponse
  | unexpectedRespType
  | genFailed (msg : String)
  | commitFailed
  | noToken
  | prHttpFailed (body : String)
  | prDecodeFailed
  deriving DecidableEq, Repr

/-- Externally visible events performed by the embedded functions, in program
order: lock operations on the shared application state, worktree status
queries, staging, branch comparison, generation-backend requests, the commit
write, the push transport call, the review-platform POST and the final
state update of `handleScheduledTask`. -/
inductive Ev
  | rLock
  | rUnlock
  | wLock
  | wUnlock
  | statusQuery
  | wstatusQuery
  | addAll
  | branchCompare (current target : String)
  | genRequest (backend : String)
  | commitWrite
  | pushAttempt (refspec : String)
  | prPost (owner repoName : String) (head base : String)
  | updateRepoState
  deriving DecidableEq, Repr

/-- `Except.error` test (Go: `err != nil`). -/
def isErr {α : Type} : Except GErr α → Bool
  | .error _ => true
  | .ok _ => false

/-- Go `strings.HasPrefix` on character lists. -/
def goHasPrefix : List Char → List Char → Bool
  | [], _ => true
  | _ :: _, [] => false
  | p :: ps, c :: cs => p = c && goHasPrefix ps cs

/-- Go `strings.TrimPrefix` on character lists: strips `pre` when it is a
prefix, otherwise returns the input unchanged. -/
def goTrimPrefixL (pre s : List Char) : List Char :=
  if goHasPrefix pre s then s.drop pre.length else s

/-- Go `strings.HasSuffix` on character lists. -/
def goHasSuffix (suf s : List Char) : Bool :=
  goHasPrefix suf.reverse s.reverse

/-- Go `strings.TrimSuffix` on character lists. -/
def goTrimSuffixL (suf s : List Char) : List Char :=
  if goHasSuffix suf s then s.take (s.length - suf.length) else s

/-- Go `strings.Contains` on character lists. -/
def goContains (sub : List Char) : List Char → Bool
  | [] => goHasPrefix sub []
  | c :: rest => goHasPrefix sub (c :: rest) || goContains sub rest

/-- Go `strings.Split` with a one-character separator. -/
def splitOnChar (sep : Char) : List Char → List (List Char)
  | [] => [[]]
  | c :: rest =>
    if c = sep then [] :: splitOnChar sep rest
    else
      match splitOnChar sep rest with
      | [] => [[c]]
      | g :: gs => (c :: g) :: gs

/-- Go `strings.TrimPrefix` on strings. -/
def goTrimPrefixStr (s pre : String) : String :=
  ⟨goTrimPrefixL pre.data s.data⟩

/-- One entry of a go-git worktree status map: path with staging and
worktree status codes (`' '` is `git.Unmodified`). -/
structure FileEntry where
  path : String
  staging : Char
  worktree : Char
  deriving DecidableEq, Repr

/-- A go-git `git.Status` value: the set of file status entries. -/
abbrev WorktreeStatus := List FileEntry

/-- go-git `Status.IsClean`: every file is unmodified in both the staging
area and the worktree. -/
def isCleanStatus (st : WorktreeStatus) : Bool :=
  st.all fun e => e.staging = ' ' && e.worktree = ' '

/-- `gitops.RepoStatus` (operations.go lines 26-31). -/
structure RepoStatus where
  hasChanges : Bool
  changedFiles : List String
  currentBranch : String
  isClean : Bool
  deriving DecidableEq, Repr

/-- Oracle environment for `GetRepoStatus`: results of `git.PlainOpen`,
`repo.Worktree`, `w.Status` and `repo.Head` (head as short branch name). -/
structure GitRepoEnv where
  openRes : Except GErr Unit
  worktreeRes : Except GErr Unit
  statusRes : Except GErr WorktreeStatus
  headRes : Except GErr String

/-- `gitops.GetRepoStatus` (operations.go lines 80-114). -/
def GetRepoStatus (env : GitRepoEnv) : Except GErr RepoStatus :=
  match env.openRes with
  | .error e => .error e
  | .ok _ =>
    match env.worktreeRes with
    | .error e => .error e
    | .ok _ =>
      match env.statusRes with
      | .error e => .error e
      | .ok st =>
        match env.headRes with
        | .error e => .error e
        | .ok b =>
          .ok { hasChanges := !isCleanStatus st
                changedFiles :=
                  (st.filter fun e => !(e.staging = ' ' && e.worktree = ' ')).map (·.path)
                currentBranch := b
                isClean := isCleanStatus st }

/-- A commit graph together with branch references, embedding the parts of a
go-git `Repository` that `getBranchChanges` reads: commits are node ids in
`[0, size)`, `parents` gives each commit's parent list, `branches` maps a
branch name to its tip commit, `commitFiles` models `Commit.Stats` (the file
names touched) and `commitMsg` models `Commit.Message`. -/
structure RepoModel where
  size : Nat
  parents : Nat → List Nat
  branches : List (String × Nat)
  commitFiles : Nat → List String
  commitMsg : Nat → String

/-- Fuel-bounded ancestor enumeration: all commits reachable from `b` by
following parent edges (including `b` itself). -/
def ancSet (m : RepoModel) : Nat → Nat → List Nat
  | 0, b => [b]
  | fuel + 1, b => b :: (m.parents b).flatMap (ancSet m fuel)

/-- go-git `Commit.IsAncestor`: `isAncestorB m a b` is true when commit `a`
is an ancestor of commit `b` (mimicking `git merge-base --is-ancestor a b`;
a commit is an ancestor of itself). -/
def isAncestorB (m : RepoModel) (a b : Nat) : Bool :=
  a ∈ ancSet m m.size b

/-- go-git `Commit.MergeBase`: the best (nearest) common ancestors of `a`
and `b` — common ancestors that are not ancestors of another, distinct
common ancestor. -/
def mergeBasesList (m : RepoModel) (a b : Nat) : List Nat :=
  let common := (List.range m.size).filter fun c => isAncestorB m c a && isAncestorB m c b
  common.filter fun c => common.all fun d => d = c || !isAncestorB m c d

/-- The merge-base resolution of `getBranchChanges` (operations.go lines
294-325), verbatim in structure: it first tests
`currentCommit.IsAncestor(targetCommit)` (i.e. whether the current tip is an
ancestor of the target tip) and takes `targetCommit` as the merge base, then
tests `targetCommit.IsAncestor(currentCommit)` and takes `currentCommit`,
and otherwise falls back to `MergeBase`, failing when no common ancestor
exists. -/
def resolveMergeBase (m : RepoModel) (curTip tgtTip : Nat) : Except GErr Nat :=
  if isAncestorB m curTip tgtTip then .ok tgtTip
  else if isAncestorB m tgtTip curTip then .ok curTip
  else
    match mergeBasesList m curTip tgtTip with
    | [] => .error .noCommonAncestor
    | c :: _ => .ok c

/-- go-git `repo.Log` order: depth-first walk from the tip over parent
edges, visiting each commit once. -/
def dfsLog (m : RepoModel) : Nat → List Nat → List Nat → List Nat
  | 0, _, _ => []
  | _ + 1, _, [] => []
  | fuel + 1, seen, n :: stack =>
    if n ∈ seen then dfsLog m fuel seen stack
    else n :: dfsLog m fuel (n :: seen) (m.parents n ++ stack)

/-- Commit log from `tip` in walk order. -/
def logOrder (m : RepoModel) (tip : Nat) : List Nat :=
  dfsLog m (m.size * m.size + m.size + 1) [] [tip]

/-- First-occurrence deduplication (the file set accumulated in a Go map). -/
def dedupStr : List String → List String → List String
  | _, [] => []
  | seen, x :: rest =>
    if x ∈ seen then dedupStr seen rest
    else x :: dedupStr (x :: seen) rest

/-- `gitops.BranchChanges` (operations.go lines 61-65); commits are kept as
graph node ids. -/
structure BranchChanges where
  files : List String
  commits : List Nat
  summary : String
  deriving DecidableEq, Repr

/-- `gitops.Changes` (operations.go lines 67-71). -/
structure Changes where
  files : List String
  commits : List String
  summary : String
  deriving DecidableEq, Repr

/-- `gitops.getBranchChanges` (operations.go lines 271-374): resolves both
branch references, resolves the merge base with `resolveMergeBase`, then
walks the log from the current tip, collecting commits and touched files
until the merge base is reached. -/
def getBranchChanges (m : RepoModel) (current target : String) : Except GErr BranchChanges :=
  match m.branches.lookup current with
  | none => .error (.refNotFound current)
  | some curTip =>
    match m.branches.lookup target with
    | none => .error (.refNotFound target)
    | some tgtTip =>
      match resolveMergeBase m curTip tgtTip with
      | .error e => .error e
      | .ok base =>
        let walk := (logOrder m curTip).takeWhile fun c => c ≠ base
        .ok { files := dedupStr [] (walk.flatMap m.commitFiles)
              commits := walk
              summary := String.join (walk.map fun c => "- " ++ m.commitMsg c ++ "\n") }

/-- Go `fmt.Sprintf` rendering of a string slice (`%v`). -/
def goSliceFmt (xs : List String) : String :=
  "[" ++ String.intercalate " " xs ++ "]"

/-- Oracle environment for `getChanges`: results of `repo.Worktree`,
`w.Status` and `repo.Head`, plus the repository's commit graph. -/
structure ChangesEnv where
  worktreeRes : Except GErr Unit
  statusRes : Except GErr WorktreeStatus
  headRes : Except GErr String
  repoM : RepoModel

/-- `gitops.getChanges` (operations.go lines 660-709): collects every file
in the worktree status, then merges in the branch changes computed against
the hardcoded `"main"` integration branch. -/
def getChanges (env : ChangesEnv) : Except GErr Changes × List Ev :=
  match env.worktreeRes with
  | .error e => (.error e, [])
  | .ok _ =>
    match env.statusRes with
    | .error e => (.error e, [.wstatusQuery])
    | .ok st =>
      match env.headRes with
      | .error e => (.error e, [.wstatusQuery])
      | .ok currentBranch =>
        match getBranchChanges env.repoM currentBranch "main" with
        | .error e => (.error e, [.wstatusQuery, .branchCompare currentBranch "main"])
        | .ok bc =>
          let files := st.map (·.path)
          let commits := bc.commits.map env.repoM.commitMsg
          let files2 := files ++ bc.files.filter fun f => !files.contains f
          (.ok { files := files2
                 commits := commits
                 summary := "Changed files:\n" ++ goSliceFmt files2 ++
                   "\n\nCommits:\n" ++ goSliceFmt commits },
           [.wstatusQuery, .branchCompare currentBranch "main"])

/-- `gitops.AIService` (operations.go lines 73-78). -/
structure AIService where
  server : String
  model : String
  type : String
  apiKey : String
  deriving DecidableEq, Repr

/-- The message object of `gitops.OllamaResponse`. -/
structure OllamaMessage where
  content : String
  deriving DecidableEq, Repr

/-- `gitops.OllamaResponse` (operations.go lines 41-46). -/
structure OllamaResponse where
  message : OllamaMessage
  done : Bool
  deriving DecidableEq, Repr

/-- Oracle for one `http.Post` to the Ollama chat endpoint: transport error,
or HTTP status code, raw body, and the decoded response when the body is
valid JSON. -/
structure OllamaEnv where
  resp : Except GErr (Nat × String × Option OllamaResponse)

/-- One part of a Gemini candidate's content: a text part (`genai.Text`) or
a part of any other type. -/
inductive GenaiPart
  | text (s : String)
  | nonText
  deriving DecidableEq, Repr

/-- Oracle for one Gemini `GenerateContent` call: client construction
result, then the transport result carrying the candidates (each candidate
is its list of content parts). -/
structure GeminiEnv where
  client : Except GErr Unit
  resp : Except GErr (List (List GenaiPart))

/-- `gitops.formatChangesForPrompt` (operations.go lines 711-715). -/
def formatChangesForPrompt (changes : Changes) : String :=
  "Changed files:\n" ++ String.intercalate "\n" changes.files ++
    "\n\nRecent commits for context:\n" ++ String.intercalate "\n" changes.commits

/-- The commit-message prompt built by both backends (operations.go lines
377-379 and 408-410). -/
def commitPrompt (changes : Changes) : String :=
  "Generate a concise commit message for the following changes\n" ++
    "no placeholders, explanation, or other text should be provided\n" ++
    "limit the message to 72 characters\n\n" ++ formatChangesForPrompt changes

/-- `gitops.generateOllamaCommitMessage` (operations.go lines 407-447):
POSTs the prompt; a transport error or non-200 status is an error; an OK
response's decoded `message.content` is returned as-is. -/
def generateOllamaCommitMessage (changes : Changes) (ai : AIService) (env : OllamaEnv) :
    Except GErr String × List Ev :=
  let _prompt := commitPrompt changes
  let _model := ai.model
  match env.resp with
  | .error e => (.error e, [.genRequest "ollama"])
  | .ok (code, body, dec) =>
    if code ≠ 200 then (.error (.apiNon200 body), [.genRequest "ollama"])
    else
      match dec with
      | none => (.error .decodeFailed, [.genRequest "ollama"])
      | some r => (.ok r.message.content, [.genRequest "ollama"])

/-- `gitops.generateGeminiCommitMessage` (operations.go lines 376-405):
client construction and transport errors fail; an empty candidate list or an
empty part list fails with the no-response error; a non-text first part
fails; otherwise the text is returned. -/
def generateGeminiCommitMessage (changes : Changes) (ai : AIService) (env : GeminiEnv) :
    Except GErr String × List Ev :=
  let _prompt := commitPrompt changes
  let _model := ai.model
  match env.client with
  | .error _ => (.error .clientFailed, [])
  | .ok _ =>
    match env.resp with
    | .error e => (.error e, [.genRequest "gemini"])
    | .ok cands =>
      match cands with
      | [] => (.error .noGeminiResponse, [.genRequest "gemini"])
      | parts :: _ =>
        match parts with
        | [] => (.error .noGeminiResponse, [.genRequest "gemini"])
        | .text t :: _ => (.ok t, [.genRequest "gemini"])
        | .nonText :: _ => (.error .unexpectedRespType, [.genRequest "gemini"])

/-- Oracles for one generation request, covering both configured backends. -/
structure GenEnv where
  ollama : OllamaEnv
  gemini : GeminiEnv

/-- `gitops.generateCommitMessage` (operations.go lines 213-218): dispatches
on the configured service type. -/
def generateCommitMessage (ai : AIService) (changes : Changes) (env : GenEnv) :
    Except GErr String × List Ev :=
  if ai.type = "gemini" then generateGeminiCommitMessage changes ai env.gemini
  else generateOllamaCommitMessage changes ai env.ollama

/-- The PR-description prompt (operations.go lines 459-469 and 489-498). -/
def prDescPrompt (changes : Changes) : String :=
  "Generate a detailed pull request description for the following changes:\n\nCommits:\n" ++
    changes.summary ++ "\n\nChanged files:\n" ++ goSliceFmt changes.files

/-- `gitops.generateOllamaPRDescription` (operations.go lines 488-535). -/
def generateOllamaPRDescription (changes : Changes) (ai : AIService) (env : OllamaEnv) :
    Except GErr String × List Ev :=
  let _prompt := prDescPrompt changes
  match env.resp with
  | .error e => (.error e, [.genRequest "ollama"])
  | .ok (code, body, dec) =>
    if code ≠ 200 then (.error (.apiNon200 body), [.genRequest "ollama"])
    else
      match dec with
      | none => (.error .decodeFailed, [.genRequest "ollama"])
      | some r => (.ok r.message.content, [.genRequest "ollama"])

/-- `gitops.generateGeminiPRDescription` (operations.go lines 449-486). -/
def generateGeminiPRDescription (changes : Changes) (ai : AIService) (env : GeminiEnv) :
    Except GErr String × List Ev :=
  let _prompt := prDescPrompt changes
  match env.client with
  | .error _ => (.error .clientFailed, [])
  | .ok _ =>
    match env.resp with
    | .error e => (.error e, [.genRequest "gemini"])
    | .ok cands =>
      match cands with
      | [] => (.error .noGeminiResponse, [.genRequest "gemini"])
      | parts :: _ =>
        match parts with
        | [] => (.error .noGeminiResponse, [.genRequest "gemini"])
        | .text t :: _ => (.ok t, [.genRequest "gemini"])
        | .nonText :: _ => (.error .unexpectedRespType, [.genRequest "gemini"])

/-- `gitops.generatePRTitle` (operations.go lines 537-542): reuses the
commit-message generators. -/
def generatePRTitle (ai : AIService) (changes : Changes) (env : GenEnv) :
    Except GErr String × List Ev :=
  if ai.type = "gemini" then generateGeminiCommitMessage changes ai env.gemini
  else generateOllamaCommitMessage changes ai env.ollama

/-- `gitops.generatePRDescription` (operations.go lines 544-549). -/
def generatePRDescription (ai : AIService) (changes : Changes) (env : GenEnv) :
    Except GErr String × List Ev :=
  if ai.type = "gemini" then generateGeminiPRDescription changes ai env.gemini
  else generateOllamaPRDescription changes ai env.ollama

/-- Oracle environment for `PushChanges`: results of `git.PlainOpen`,
`getSSHAuth`, `repo.Head` (short branch name) and the remote's response to
`repo.Push`. -/
structure PushEnv where
  openRes : Except GErr Unit
  authRes : Except GErr Unit
  headRes : Except GErr String
  pushRes : Except GErr Unit

/-- `gitops.PushChanges` (operations.go lines 181-211): opens the
repository, loads SSH credentials (wrapping a failure as the SSH
authentication error), reads HEAD, builds the refspec
`+refs/heads/<branch>:refs/heads/<branch>` and pushes it to `origin`,
returning the remote's verdict. -/
def PushChanges (env : PushEnv) : Except GErr Unit × List Ev :=
  match env.openRes with
  | .error e => (.error e, [])
  | .ok _ =>
    match env.authRes with
    | .error _ => (.error .sshAuthFailed, [])
    | .ok _ =>
      match env.headRes with
      | .error e => (.error e, [])
      | .ok b =>
        (env.pushRes, [.pushAttempt ("+refs/heads/" ++ b ++ ":refs/heads/" ++ b)])

/-- The SSH-form marker `CreateDraftPR` searches for (operations.go line
574). -/
def sshMarker : List Char := "git@github.com:".data

/-- The HTTPS prefix `CreateDraftPR` trims (operations.go line 579). -/
def httpsMarker : List Char := "https://github.com/".data

/-- The `.git` suffix stripped from the repository name. -/
def dotGit : List Char := ".git".data

/-- The owner/repository extraction inlined in `CreateDraftPR`
(operations.go lines 570-582): when the URL contains `git@github.com:`,
trim that prefix and split on `/`; otherwise trim `https://github.com/` and
split on `/`; the owner is the first part and the repository name the
second with a `.git` suffix removed. -/
def extractOwnerRepo (remoteURL : String) : String × String :=
  let u := remoteURL.data
  let parts :=
    if goContains sshMarker u then splitOnChar '/' (goTrimPrefixL sshMarker u)
    else splitOnChar '/' (goTrimPrefixL httpsMarker u)
  (⟨parts.getD 0 []⟩, ⟨goTrimSuffixL dotGit (parts.getD 1 [])⟩)

/-- `gitops.GitHubPRRequest` (operations.go lines 48-55). -/
structure GitHubPRRequest where
  title : String
  head : String
  base : String
  body : String
  draft : Bool
  maintainerCanModify : Bool
  deriving DecidableEq, Repr

/-- Oracle environment for `CreateDraftPR`: results of `git.PlainOpen`,
`repo.Head` (full reference name), `repo.Remote("origin").Config().URLs[0]`,
the `getChanges` environment, the generation oracles for title and
description, the configured token, and the GitHub API response (status
code, body, decoded PR number). -/
structure PREnv where
  openRes : Except GErr Unit
  headFullRes : Except GErr String
  remoteRes : Except GErr String
  chEnv : ChangesEnv
  ai : AIService
  genTitle : GenEnv
  genDesc : GenEnv
  token : String
  postRes : Except GErr (Nat × String × Option Nat)

/-- `gitops.CreateDraftPR` (operations.go lines 551-658): resolves the
current branch from HEAD, owner and repository from the remote URL,
computes changes, generates title and description, then submits a draft PR
with base `"main"`, failing when no token is configured, on a non-201
status, or on an undecodable response. -/
def CreateDraftPR (env : PREnv) : Except GErr Unit × List Ev :=
  match env.openRes with
  | .error e => (.error e, [])
  | .ok _ =>
    match env.headFullRes with
    | .error e => (.error e, [])
    | .ok fullRef =>
      let currentBranch := goTrimPrefixStr fullRef "refs/heads/"
      match env.remoteRes with
      | .error e => (.error e, [])
      | .ok remoteURL =>
        let owner := (extractOwnerRepo remoteURL).1
        let repoName := (extractOwnerRepo remoteURL).2
        match getChanges env.chEnv with
        | (.error e, tr) => (.error e, tr)
        | (.ok ch, tr) =>
          match generatePRTitle env.ai ch env.genTitle with
          | (.error e, trT) => (.error e, tr ++ trT)
          | (.ok _prTitle, trT) =>
            match generatePRDescription env.ai ch env.genDesc with
            | (.error e, trD) => (.error e, tr ++ trT ++ trD)
            | (.ok _prDescription, trD) =>
              if env.token = "" then (.error .noToken, tr ++ trT ++ trD)
              else
                let evs := tr ++ trT ++ trD ++
                  [.prPost owner repoName currentBranch "main"]
                match env.postRes with
                | .error _ => (.error .httpSendFailed, evs)
                | .ok (code, body, num) =>
                  if code ≠ 201 then (.error (.prHttpFailed body), evs)
                  else
                    match num with
                    | none => (.error .prDecodeFailed, evs)
                    | some _ => (.ok (), evs)

/-- Oracle environment for `CommitChanges`: results of `git.PlainOpen`,
`repo.Worktree`, `w.Status`, `w.Add(".")`, the `getChanges` environment,
the configured service with its generation oracles, and the result of
`w.Commit`. -/
structure CommitEnv where
  openRes : Except GErr Unit
  worktreeRes : Except GErr Unit
  statusRes : Except GErr WorktreeStatus
  addRes : Except GErr Unit
  chEnv : ChangesEnv
  ai : AIService
  gen : GenEnv
  commitRes : Except GErr Unit

/-- `gitops.CommitChanges` (operations.go lines 116-161): returns nil
immediately on a clean worktree; otherwise stages everything, computes the
changes, requests a commit message, and writes the commit attributed to the
automation identity. -/
def CommitChanges (env : CommitEnv) : Except GErr Unit × List Ev :=
  match env.openRes with
  | .error e => (.error e, [])
  | .ok _ =>
    match env.worktreeRes with
    | .error e => (.error e, [])
    | .ok _ =>
      match env.statusRes with
      | .error e => (.error e, [.wstatusQuery])
      | .ok st =>
        if isCleanStatus st then (.ok (), [.wstatusQuery])
        else
          match env.addRes with
          | .error e => (.error e, [.wstatusQuery, .addAll])
          | .ok _ =>
            match getChanges env.chEnv with
            | (.error e, tr) => (.error e, [.wstatusQuery, .addAll] ++ tr)
            | (.ok ch, tr) =>
              match generateCommitMessage env.ai ch env.gen with
              | (.error e, trG) => (.error e, [.wstatusQuery, .addAll] ++ tr ++ trG)
              | (.ok _msg, trG) =>
                (env.commitRes, [.wstatusQuery, .addAll] ++ tr ++ trG ++ [.commitWrite])

/-- Outcome of one scheduled pipeline run, following the spec's error
taxonomy as produced by `handleScheduledTask`'s early returns. -/
inductive Outcome
  | notFound
  | statusFailed (e : GErr)
  | noOp
  | commitFailed (e : GErr)
  | pushFailed (e : GErr)
  | prFailed (e : GErr)
  | success
  deriving DecidableEq, Repr

/-- Oracle environment for one firing of `handleScheduledTask`. -/
structure SchedTaskEnv where
  repoExists : Bool
  statusEnv : GitRepoEnv
  commitEnv : CommitEnv
  pushEnv : PushEnv
  prEnv : PREnv

/-- `main.handleScheduledTask` (main.go lines 459-507): under the state
read lock (released by defer at return), looks up the repository, takes a
fresh status, returns on no changes, then commits, pushes, and creates the
draft PR, aborting on the first failure; on full success it acquires the
state write lock and updates last-sync and status.  The returned list is
the sequence of operations the function attempts, in program order. -/
def handleScheduledTask (env : SchedTaskEnv) : Outcome × List Ev :=
  if !env.repoExists then (.notFound, [.rLock, .rUnlock])
  else
    match GetRepoStatus env.statusEnv with
    | .error e => (.statusFailed e, [.rLock, .statusQuery, .rUnlock])
    | .ok st =>
      if !st.hasChanges then (.noOp, [.rLock, .statusQuery, .rUnlock])
      else
        match CommitChanges env.commitEnv with
        | (.error e, trC) => (.commitFailed e, [.rLock, .statusQuery] ++ trC ++ [.rUnlock])
        | (.ok _, trC) =>
          match PushChanges env.pushEnv with
          | (.error e, trP) =>
            (.pushFailed e, [.rLock, .statusQuery] ++ trC ++ trP ++ [.rUnlock])
          | (.ok _, trP) =>
            match CreateDraftPR env.prEnv with
            | (.error e, trR) =>
              (.prFailed e, [.rLock, .statusQuery] ++ trC ++ trP ++ trR ++ [.rUnlock])
            | (.ok _, trR) =>
              (.success, [.rLock, .statusQuery] ++ trC ++ trP ++ trR ++
                [.wLock, .updateRepoState, .wUnlock, .rUnlock])

/-- Result of sequentially executing an event trace under `sync.RWMutex`
semantics for the single goroutine that produced it: either the whole trace
runs, or execution blocks at a write-lock acquisition made while the same
goroutine still holds read locks (no other party in the program releases
them, so the writer waits forever). -/
inductive ExecResult
  | finished (done : List Ev)
  | blockedAtWLock (done : List Ev) (readersHeld : Nat)
  deriving DecidableEq, Repr

/-- Trace interpreter: tracks the number of read locks held; `wLock` with a
positive reader count blocks and returns the executed prefix. -/
def runLockTrace : Nat → List Ev → List Ev → ExecResult
  | _, done, [] => .finished done.reverse
  | r, done, .rLock :: rest => runLockTrace (r + 1) (.rLock :: done) rest
  | r, done, .rUnlock :: rest => runLockTrace (r - 1) (.rUnlock :: done) rest
  | r, done, .wLock :: rest =>
    if r = 0 then runLockTrace r (.wLock :: done) rest
    else .blockedAtWLock done.reverse r
  | r, done, ev :: rest => runLockTrace r (ev :: done) rest

/-- Execute a trace from the unlocked state. -/
def execTrace (tr : List Ev) : ExecResult :=
  runLockTrace 0 [] tr

/-- Event classifiers used to state which remote calls a run performs. -/
def isPushEv : Ev → Bool
  | .pushAttempt _ => true
  | _ => false

/-- Review-platform POST events. -/
def isPrPostEv : Ev → Bool
  | .prPost _ _ _ _ => true
  | _ => false

/-- Generation-backend request events. -/
def isGenEv : Ev → Bool
  | .genRequest _ => true
  | _ => false

/-- Commit-write events. -/
def isCommitWriteEv : Ev → Bool
  | .commitWrite => true
  | _ => false

/-- Worktree-status and branch-comparison events: the only events
`getChanges` performs. -/
def isChangesEv : Ev → Bool
  | .wstatusQuery => true
  | .branchCompare _ _ => true
  | _ => false

/-- Does the trace perform a push? -/
def hasPush (tr : List Ev) : Bool := tr.any isPushEv

/-- Does the trace perform a review-platform POST? -/
def hasPrPost (tr : List Ev) : Bool := tr.any isPrPostEv

/-- Does the trace perform a generation request? -/
def hasGen (tr : List Ev) : Bool := tr.any isGenEv

/-- Does the trace perform a commit write? -/
def hasCommitWrite (tr : List Ev) : Bool := tr.any isCommitWriteEv

/-- Owners named in the trace's review-platform POSTs. -/
def prOwners (tr : List Ev) : List String :=
  tr.filterMap fun e =>
    match e with
    | .prPost o _ _ _ => some o
    | _ => none

/-- Base branches named in the trace's review-platform POSTs. -/
def prBases (tr : List Ev) : List String :=
  tr.filterMap fun e =>
    match e with
    | .prPost _ _ _ b => some b
    | _ => none

/-- Modelled from the spec: the `internal/scheduler` package is not among
the sources, only its callers are, so its firing discipline is taken from
the spec (section 4.3): a due task whose key is not currently `Running`
transitions to `Running` and its job runs for its duration; a due task
whose key is still `Running` from a prior firing is skipped entirely — not
queued.  `due` is the time the control loop observes the task as due and
`dur` the job's running time. -/
structure DueEvent where
  key : String
  due : Nat
  dur : Nat
  deriving DecidableEq, Repr

/-- Modelled from the spec: one recorded firing — its key and its execution
interval, start inclusive, stop exclusive. -/
structure FiringRec where
  key : String
  start : Nat
  stop : Nat
  deriving DecidableEq, Repr

/-- Modelled from the spec: scheduler state — current time, the keys
currently `Running` with the time their job completes, the recorded
firings, and the skipped (key, time) pairs. -/
structure SchedState where
  time : Nat
  running : List (String × Nat)
  fired : List FiringRec
  skipped : List (String × Nat)
  deriving DecidableEq, Repr

/-- Association-list lookup of a running key's completion time. -/
def findEnd : List (String × Nat) → String → Option Nat
  | [], _ => none
  | (k, e) :: rest, key => if k = key then some e else findEnd rest key

/-- Modelled from the spec: on job completion the key transitions back to
`Idle`; entries whose completion time has passed are dropped. -/
def clearDone (l : List (String × Nat)) (t : Nat) : List (String × Nat) :=
  l.filter fun p => t < p.2

/-- Modelled from the spec (section 4.3, step 3): process one due
observation.  Time advances to the observation (an overdue task fires at
the current time), completed jobs become idle, and then the key fires
unless it is still `Running`, in which case the firing is recorded as
skipped — no queueing, no concurrent re-entry. -/
def stepSched (s : SchedState) (e : DueEvent) : SchedState :=
  match findEnd (clearDone s.running (max s.time e.due)) e.key with
  | some _ =>
    { time := max s.time e.due
      running := clearDone s.running (max s.time e.due)
      fired := s.fired
      skipped := (e.key, max s.time e.due) :: s.skipped }
  | none =>
    { time := max s.time e.due
      running := (e.key, max s.time e.due + e.dur) :: clearDone s.running (max s.time e.due)
      fired := ⟨e.key, max s.time e.due, max s.time e.due + e.dur⟩ :: s.fired
      skipped := s.skipped }

/-- Modelled from the spec: run the scheduler over a sequence of due
observations in the order the control loop makes them. -/
def runSched (evs : List DueEvent) : SchedState :=
  evs.foldl stepSched ⟨0, [], [], []⟩

/-- Two firing records overlap-free: equal keys force disjoint intervals. -/
def overlapFree (a b : FiringRec) : Prop :=
  a.key = b.key → a.stop ≤ b.start ∨ b.stop ≤ a.start

/-- Per-key serialization: all recorded firings of the same key are
pairwise disjoint in time. -/
def noOverlap (l : List FiringRec) : Prop :=
  l.Pairwise overlapFree

/-- Lock-related events (including the guarded state update), used to state
that the gitops operations themselves never touch the state lock. -/
def isLockOrUpdateEv : Ev → Bool
  | .rLock => true
  | .rUnlock => true
  | .wLock => true
  | .wUnlock => true
  | .updateRepoState => true
  | _ => false

/-- A trace free of lock operations and state updates. -/
def noLockEvs (tr : List Ev) : Bool :=
  tr.all fun e => !isLockOrUpdateEv e

/-- Example repository: commit 1 (tip of `feature`) has parent commit 0
(tip of `main`), so `feature` is one commit ahead of `main`. -/
def repoModelEx : RepoModel :=
  { size := 2
    parents := fun n => if n = 1 then [0] else []
    branches := [("main", 0), ("feature", 1)]
    commitFiles := fun _ => ["a.go"]
    commitMsg := fun n => if n = 0 then "init" else "feat" }

/-- Example repository without a local `main` branch. -/
def repoModelNoMain : RepoModel :=
  { size := 1
    parents := fun _ => []
    branches := [("feature", 0)]
    commitFiles := fun _ => ["a.go"]
    commitMsg := fun _ => "init" }

/-- A dirty worktree status: one file modified in the worktree. -/
def stDirty : WorktreeStatus := [⟨"a.go", ' ', 'M'⟩]

/-- An Ollama-backed service configuration. -/
def aiOllama : AIService :=
  { server := "http://localhost:11434", model := "llama2", type := "ollama", apiKey := "" }

/-- Generation oracles where both backends answer successfully. -/
def genEnvOk : GenEnv :=
  { ollama := ⟨.ok (200, "", some ⟨⟨"msg"⟩, true⟩)⟩
    gemini := ⟨.ok (), .ok [[.text "msg"]]⟩ }

/-- Generation oracles where both backends are unreachable. -/
def genEnvFail : GenEnv :=
  { ollama := ⟨.error .httpSendFailed⟩
    gemini := ⟨.ok (), .error .httpSendFailed⟩ }

/-- An Ollama oracle answering 200 with an empty message content. -/
def ollamaEmptyEnv : OllamaEnv := ⟨.ok (200, "", some ⟨⟨""⟩, true⟩)⟩

/-- A concrete `Changes` value. -/
def changesEx : Changes := ⟨["a.go", "b.go"], ["init"], "s"⟩

/-- A succeeding `getChanges` environment over `repoModelEx`. -/
def chEnvOk : ChangesEnv := ⟨.ok (), .ok stDirty, .ok "feature", repoModelEx⟩

/-- A `getChanges` environment over the repository lacking `main`. -/
def chEnvNoMain : ChangesEnv := ⟨.ok (), .ok stDirty, .ok "feature", repoModelNoMain⟩

/-- A fully succeeding `CommitChanges` environment. -/
def cEnvOk : CommitEnv :=
  { openRes := .ok (), worktreeRes := .ok (), statusRes := .ok stDirty
    addRes := .ok (), chEnv := chEnvOk, ai := aiOllama, gen := genEnvOk
    commitRes := .ok () }

/-- A `CommitChanges` environment whose generation backend is unreachable. -/
def cEnvGenFail : CommitEnv :=
  { cEnvOk with gen := genEnvFail }

/-- A `CommitChanges` environment on a repository lacking `main`. -/
def cEnvNoMain : CommitEnv :=
  { cEnvOk with chEnv := chEnvNoMain }

/-- A fully succeeding push environment on branch `feature`. -/
def pushEnvOk : PushEnv := ⟨.ok (), .ok (), .ok "feature", .ok ()⟩

/-- A push environment whose SSH credentials fail to load. -/
def pushEnvAuthFail : PushEnv := ⟨.ok (), .error .openFailed, .ok "feature", .ok ()⟩

/-- A push environment whose remote rejects the push. -/
def pushEnvRej : PushEnv :=
  ⟨.ok (), .ok (), .ok "feature", .error (.pushRejected "non-fast-forward")⟩

/-- A fully succeeding `CreateDraftPR` environment with a github.com remote. -/
def prEnvOk : PREnv :=
  { openRes := .ok (), headFullRes := .ok "refs/heads/feature"
    remoteRes := .ok "git@github.com:acme/widgets.git"
    chEnv := chEnvOk, ai := aiOllama, genTitle := genEnvOk, genDesc := genEnvOk
    token := "tok", postRes := .ok (201, "", some 1) }

/-- The same environment with the non-github host remote URL named by the
spec's test. -/
def prEnvEx3 : PREnv :=
  { prEnvOk with remoteRes := .ok "git@example.com:acme/widgets.git" }

/-- A status environment observing a dirty repository. -/
def statusEnvDirty : GitRepoEnv := ⟨.ok (), .ok (), .ok stDirty, .ok "feature"⟩

/-- A status environment observing a clean repository. -/
def statusEnvClean : GitRepoEnv := ⟨.ok (), .ok (), .ok [], .ok "main"⟩

/-- A scheduled-task environment in which every step succeeds. -/
def schedEnvOk : SchedTaskEnv := ⟨true, statusEnvDirty, cEnvOk, pushEnvOk, prEnvOk⟩

/-- A scheduled-task environment observing a clean repository. -/
def schedEnvClean : SchedTaskEnv := ⟨true, statusEnvClean, cEnvOk, pushEnvOk, prEnvOk⟩

/-- A scheduled-task environment whose generation backend is unreachable. -/
def schedEnvGenFail : SchedTaskEnv := ⟨true, statusEnvDirty, cEnvGenFail, pushEnvOk, prEnvOk⟩

/-- Scheduler example: a 10-tick job on key `k` due at 0, the same key due
again at 5 (while still running), and another key due at 5. -/
def dueEvsEx : List DueEvent := [⟨"k", 0, 10⟩, ⟨"k", 5, 1⟩, ⟨"j", 5, 2⟩]

/-- Scheduler example state: key `k` running until 10, one recorded firing. -/
def schedStateEx : SchedState := ⟨0, [("k", 10)], [⟨"k", 0, 10⟩], []⟩

/-- Scheduler example due observation for key `k` at time 5. -/
def dueEvEx : DueEvent := ⟨"k", 5, 1⟩

/-- Modelled from the spec: the scheduler invariant maintained by
`stepSched` — recorded firings of the same key are pairwise disjoint, every
firing started no later than the current time, and a firing extending past
the current time is exactly the one its key is `Running` on. -/
def SchedInv (s : SchedState) : Prop :=
  noOverlap s.fired ∧
  (∀ f ∈ s.fired, f.start ≤ s.time) ∧
  (∀ f ∈ s.fired, f.stop ≤ s.time ∨ findEnd s.running f.key = some f.stop)

/-- The status snapshot `GetRepoStatus` yields on `statusEnvDirty`. -/
def stEx : RepoStatus := ⟨true, ["a.go"], "feature", false⟩

/-- The trace of `CommitChanges` on the all-success environment. -/
def tcEx : List Ev := (CommitChanges cEnvOk).2

/-- The trace of `PushChanges` on the all-success environment. -/
def tpEx : List Ev := (PushChanges pushEnvOk).2

/-- The trace of `CreateDraftPR` on the all-success environment. -/
def tqEx : List Ev := (CreateDraftPR prEnvOk).2

/-- Events `getChanges` may perform, with every branch comparison required
to target `main`. -/
def isMainCompareEv : Ev → Bool
  | .wstatusQuery => true
  | .branchCompare _ tgt => tgt == "main"
  | _ => false

/-- Events `CreateDraftPR` may perform, with every review POST required to
carry base branch `main`. -/
def isPrBaseMainEv : Ev → Bool
  | .wstatusQuery => true
  | .branchCompare _ _ => true
  | .genRequest _ => true
  | .prPost _ _ _ b => b == "main"
  | _ => false

theorem all_imp_all (l : List Ev) (p q : Ev → Bool) (h : ∀ e, p e = true → q e = true)
    (hall : l.all p = true) : l.all q = true := by
  rw [List.all_eq_true] at hall ⊢
  exact fun e he => h e (hall e he)

theorem any_false_of_all (l : List Ev) (p q : Ev → Bool) (hall : l.all p = true)
    (h : ∀ e, p e = true → q e = false) : l.any q = false := by
  rw [List.all_eq_true] at hall
  rw [List.any_eq_false]
  intro e he
  simp [h e (hall e he)]

theorem not_mem_of_all (l : List Ev) (p : Ev → Bool) (e : Ev) (hall : l.all p = true)
    (he : p e = false) : e ∉ l := by
  intro hm
  rw [List.all_eq_true] at hall
  rw [hall e hm] at he
  simp at he

theorem getChanges_all_changesEv (env : ChangesEnv) :
    (getChanges env).2.all isChangesEv = true := by
  unfold getChanges
  repeat' split <;> (try simp [isChangesEv])

theorem generateCommitMessage_all_genEv (ai : AIService) (ch : Changes) (env : GenEnv) :
    (generateCommitMessage ai ch env).2.all isGenEv = true := by
  unfold generateCommitMessage generateGeminiCommitMessage generateOllamaCommitMessage
  repeat' split <;> (try simp [isGenEv])

theorem getRepoStatus_clean_aux (env : GitRepoEnv) (rs : RepoStatus)
    (h : GetRepoStatus env = .ok rs) : rs.isClean = !rs.hasChanges := by
  unfold GetRepoStatus at h
  repeat' split at h
  any_goals exact Except.noConfusion h
  injection h with h
  subst h
  simp

theorem generatePRTitle_all_genEv (ai : AIService) (ch : Changes) (env : GenEnv) :
    (generatePRTitle ai ch env).2.all isGenEv = true := by
  unfold generatePRTitle generateGeminiCommitMessage generateOllamaCommitMessage
  repeat' split <;> (try simp [isGenEv])

theorem generatePRDescription_all_genEv (ai : AIService) (ch : Changes) (env : GenEnv) :
    (generatePRDescription ai ch env).2.all isGenEv = true := by
  unfold generatePRDescription generateGeminiPRDescription generateOllamaPRDescription
  repeat' split <;> (try simp [isGenEv])

/-- C8: for every repository path on which `GetRepoStatus` succeeds, the
returned status snapshot satisfies `isClean = !hasChanges`, so the two
boolean fields are never both true and never both false. -/
theorem getRepoStatus_isClean_iff_not_hasChanges (env : GitRepoEnv) (rs : RepoStatus)
    (h : GetRepoStatus env = .ok rs) :
    rs.isClean = !rs.hasChanges ∧
    ¬(rs.isClean = true ∧ rs.hasChanges = true) ∧
    ¬(rs.isClean = false ∧ rs.hasChanges = false) := by
  have hc := getRepoStatus_clean_aux env rs h
  refine ⟨hc, ?_, ?_⟩
  · rintro ⟨h1, h2⟩
    rw [h1, h2] at hc
    simp at hc
  · rintro ⟨h1, h2⟩
    rw [h1, h2] at hc
    simp at hc

theorem getRepoStatus_isClean_iff_not_hasChanges_witness :
    GetRepoStatus statusEnvDirty = .ok stEx ∧
    (stEx.isClean = !stEx.hasChanges ∧
      ¬(stEx.isClean = true ∧ stEx.hasChanges = true) ∧
      ¬(stEx.isClean = false ∧ stEx.hasChanges = false)) :=
  ⟨rfl, getRepoStatus_isClean_iff_not_hasChanges statusEnvDirty stEx rfl⟩
/-- C5: a scheduled run that observes a clean status snapshot ends right
after the status check with the non-error `NoOp` outcome and performs no
generation request, no commit write, no push and no review-platform call. -/
theorem scheduled_run_clean_noop (env : SchedTaskEnv) (st : RepoStatus)
    (h1 : env.repoExists = true) (h2 : GetRepoStatus env.statusEnv = .ok st)
    (h3 : st.isClean = true) :
    handleScheduledTask env = (.noOp, [.rLock, .statusQuery, .rUnlock]) ∧
    hasGen (handleScheduledTask env).2 = false ∧
    hasCommitWrite (handleScheduledTask env).2 = false ∧
    hasPush (handleScheduledTask env).2 = false ∧
    hasPrPost (handleScheduledTask env).2 = false := by
  have hc := getRepoStatus_clean_aux env.statusEnv st h2
  rw [h3] at hc
  have hch : st.hasChanges = false := by
    cases hh : st.hasChanges
    · rfl
    · rw [hh] at hc; simp at hc
  have hrun : handleScheduledTask env = (.noOp, [.rLock, .statusQuery, .rUnlock]) := by
    unfold handleScheduledTask
    rw [h1, h2]
    simp [hch]
  refine ⟨hrun, ?_, ?_, ?_, ?_⟩ <;> rw [hrun] <;> rfl

theorem scheduled_run_clean_noop_witness :
    handleScheduledTask schedEnvClean = (.noOp, [.rLock, .statusQuery, .rUnlock]) ∧
    hasGen (handleScheduledTask schedEnvClean).2 = false ∧
    hasCommitWrite (handleScheduledTask schedEnvClean).2 = false ∧
    hasPush (handleScheduledTask schedEnvClean).2 = false ∧
    hasPrPost (handleScheduledTask schedEnvClean).2 = false :=
  scheduled_run_clean_noop schedEnvClean ⟨false, [], "main", true⟩ rfl rfl rfl
theorem changesEv_props (e : Ev) (h : isChangesEv e = true) :
    isPushEv e = false ∧ isPrPostEv e = false ∧ isCommitWriteEv e = false ∧
    isLockOrUpdateEv e = false := by
  cases e <;> simp_all [isChangesEv, isPushEv, isPrPostEv, isCommitWriteEv, isLockOrUpdateEv]

theorem genEv_props (e : Ev) (h : isGenEv e = true) :
    isPushEv e = false ∧ isPrPostEv e = false ∧ isCommitWriteEv e = false ∧
    isLockOrUpdateEv e = false := by
  cases e <;> simp_all [isGenEv, isPushEv, isPrPostEv, isCommitWriteEv, isLockOrUpdateEv]

/-- C4: when commit-message generation fails during a scheduled run, the
run's outcome is exactly that generation failure, and neither the push nor
the review-platform call (nor the commit write) happens in that run. -/
theorem scheduled_run_genfail_aborts (env : SchedTaskEnv) (st : RepoStatus)
    (ws : WorktreeStatus) (ch : Changes) (trCh trG : List Ev) (e : GErr)
    (h1 : env.repoExists = true) (h2 : GetRepoStatus env.statusEnv = .ok st)
    (h3 : st.hasChanges = true)
    (ho : env.commitEnv.openRes = .ok ()) (hw : env.commitEnv.worktreeRes = .ok ())
    (hs : env.commitEnv.statusRes = .ok ws) (hcl : isCleanStatus ws = false)
    (ha : env.commitEnv.addRes = .ok ())
    (hgc : getChanges env.commitEnv.chEnv = (.ok ch, trCh))
    (hg : generateCommitMessage env.commitEnv.ai ch env.commitEnv.gen = (.error e, trG)) :
    (handleScheduledTask env).1 = .commitFailed e ∧
    hasPush (handleScheduledTask env).2 = false ∧
    hasPrPost (handleScheduledTask env).2 = false ∧
    hasCommitWrite (handleScheduledTask env).2 = false := by
  have hcc : CommitChanges env.commitEnv = (.error e, [.wstatusQuery, .addAll] ++ trCh ++ trG) := by
    unfold CommitChanges
    rw [ho, hw, hs, ha, hgc]
    simp [hcl, hg]
  have hchAll : trCh.all isChangesEv = true := by
    have := getChanges_all_changesEv env.commitEnv.chEnv
    rw [hgc] at this
    exact this
  have hgAll : trG.all isGenEv = true := by
    have := generateCommitMessage_all_genEv env.commitEnv.ai ch env.commitEnv.gen
    rw [hg] at this
    exact this
  have hrun : handleScheduledTask env =
      (.commitFailed e,
        [.rLock, .statusQuery] ++ ([.wstatusQuery, .addAll] ++ trCh ++ trG) ++ [.rUnlock]) := by
    unfold handleScheduledTask
    rw [h1, h2, hcc]
    simp [h3]
  have hPushCh : trCh.any isPushEv = false :=
    any_false_of_all trCh isChangesEv isPushEv hchAll fun ev hev => (changesEv_props ev hev).1
  have hPushG : trG.any isPushEv = false :=
    any_false_of_all trG isGenEv isPushEv hgAll fun ev hev => (genEv_props ev hev).1
  have hPrCh : trCh.any isPrPostEv = false :=
    any_false_of_all trCh isChangesEv isPrPostEv hchAll fun ev hev => (changesEv_props ev hev).2.1
  have hPrG : trG.any isPrPostEv = false :=
    any_false_of_all trG isGenEv isPrPostEv hgAll fun ev hev => (genEv_props ev hev).2.1
  have hCwCh : trCh.any isCommitWriteEv = false :=
    any_false_of_all trCh isChangesEv isCommitWriteEv hchAll fun ev hev =>
      (changesEv_props ev hev).2.2.1
  have hCwG : trG.any isCommitWriteEv = false :=
    any_false_of_all trG isGenEv isCommitWriteEv hgAll fun ev hev => (genEv_props ev hev).2.2.1
  rw [hrun]
  refine ⟨rfl, ?_, ?_, ?_⟩ <;>
    simp [hasPush, hasPrPost, hasCommitWrite, List.any_append, hPushCh, hPushG, hPrCh, hPrG,
      hCwCh, hCwG, isPushEv, isPrPostEv, isCommitWriteEv]

theorem scheduled_run_genfail_aborts_witness :
    (handleScheduledTask schedEnvGenFail).1 = .commitFailed .httpSendFailed ∧
    hasPush (handleScheduledTask schedEnvGenFail).2 = false ∧
    hasPrPost (handleScheduledTask schedEnvGenFail).2 = false ∧
    hasCommitWrite (handleScheduledTask schedEnvGenFail).2 = false :=
  scheduled_run_genfail_aborts schedEnvGenFail stEx stDirty
    ((getChanges chEnvOk).1.toOption.getD changesEx) (getChanges chEnvOk).2
    [.genRequest "ollama"] .httpSendFailed rfl rfl rfl rfl rfl rfl rfl rfl rfl rfl
/-- C6: `PushChanges` publishes the current HEAD branch under the same
branch name (refspec `+refs/heads/b:refs/heads/b`); it fails with the SSH
authentication error when credentials are missing or invalid, and it
returns the remote's rejection error when the push is rejected. -/
theorem pushChanges_spec (env : PushEnv) :
    (env.openRes = .ok () → isErr env.authRes = true →
      PushChanges env = (.error .sshAuthFailed, [])) ∧
    (∀ b, env.openRes = .ok () → env.authRes = .ok () → env.headRes = .ok b →
      PushChanges env =
        (env.pushRes, [.pushAttempt ("+refs/heads/" ++ b ++ ":refs/heads/" ++ b)])) ∧
    (∀ b m, env.openRes = .ok () → env.authRes = .ok () → env.headRes = .ok b →
      env.pushRes = .error (.pushRejected m) →
      (PushChanges env).1 = .error (.pushRejected m)) := by
  refine ⟨?_, ?_, ?_⟩
  · intro ho ha
    unfold PushChanges
    rw [ho]
    cases hA : env.authRes with
    | error e => simp
    | ok u => rw [hA] at ha; simp [isErr] at ha
  · intro b ho ha hh
    unfold PushChanges
    rw [ho, ha, hh]
  · intro b m ho ha hh hp
    unfold PushChanges
    rw [ho, ha, hh, hp]

theorem pushChanges_spec_witness :
    PushChanges pushEnvAuthFail = (.error .sshAuthFailed, []) ∧
    PushChanges pushEnvOk = (.ok (), [.pushAttempt "+refs/heads/feature:refs/heads/feature"]) ∧
    (PushChanges pushEnvRej).1 = .error (.pushRejected "non-fast-forward") :=
  ⟨(pushChanges_spec pushEnvAuthFail).1 rfl rfl,
   (pushChanges_spec pushEnvOk).2.1 "feature" rfl rfl rfl,
   (pushChanges_spec pushEnvRej).2.2 "feature" "non-fast-forward" rfl rfl rfl rfl⟩
/-- C7 counterexample: the Ollama backend, on a 200 response whose decoded
message content is empty, returns the empty string as the commit message
instead of failing — refuting the claim that an empty response is always a
generation error for both backends. -/
theorem ollama_empty_content_not_error :
    (generateOllamaCommitMessage changesEx aiOllama ollamaEmptyEnv).1 = .ok "" ∧
    isErr (generateOllamaCommitMessage changesEx aiOllama ollamaEmptyEnv).1 = false := by
  exact ⟨rfl, rfl⟩

/-- C7 amended: both backends fail when unreachable, the Ollama backend
fails on a non-200 status, the Gemini backend fails on an empty candidate
or part list, but the Ollama backend returns whatever content a 200
response carries — including the empty string — without error. -/
theorem generation_error_behavior :
    (∀ ch ai env e, env.resp = .error e →
      (generateOllamaCommitMessage ch ai env).1 = .error e) ∧
    (∀ ch ai env code body dec, env.resp = .ok (code, body, dec) → code ≠ 200 →
      (generateOllamaCommitMessage ch ai env).1 = .error (.apiNon200 body)) ∧
    (∀ ch ai env e, env.client = .ok () → env.resp = .error e →
      (generateGeminiCommitMessage ch ai env).1 = .error e) ∧
    (∀ ch ai env, env.client = .ok () → (env.resp = .ok [] ∨ env.resp = .ok [[]]) →
      (generateGeminiCommitMessage ch ai env).1 = .error .noGeminiResponse) ∧
    (∀ ch ai env body r, env.resp = .ok (200, body, some r) →
      (generateOllamaCommitMessage ch ai env).1 = .ok r.message.content) := by
  refine ⟨?_, ?_, ?_, ?_, ?_⟩
  · intro ch ai env e h
    unfold generateOllamaCommitMessage
    rw [h]
  · intro ch ai env code body dec h hne
    unfold generateOllamaCommitMessage
    rw [h]
    simp [hne]
  · intro ch ai env e hc h
    unfold generateGeminiCommitMessage
    rw [hc, h]
  · intro ch ai env hc h
    unfold generateGeminiCommitMessage
    rw [hc]
    rcases h with h | h <;> rw [h]
  · intro ch ai env body r h
    unfold generateOllamaCommitMessage
    rw [h]
    simp

theorem generation_error_behavior_witness :
    (generateOllamaCommitMessage changesEx aiOllama ⟨.error .httpSendFailed⟩).1 =
      .error .httpSendFailed ∧
    (generateOllamaCommitMessage changesEx aiOllama ⟨.ok (500, "boom", none)⟩).1 =
      .error (.apiNon200 "boom") ∧
    (generateGeminiCommitMessage changesEx aiOllama ⟨.ok (), .error .httpSendFailed⟩).1 =
      .error .httpSendFailed ∧
    (generateGeminiCommitMessage changesEx aiOllama ⟨.ok (), .ok []⟩).1 =
      .error .noGeminiResponse ∧
    (generateOllamaCommitMessage changesEx aiOllama ⟨.ok (200, "", some ⟨⟨"fix"⟩, true⟩)⟩).1 =
      .ok "fix" :=
  ⟨generation_error_behavior.1 changesEx aiOllama _ _ rfl,
   generation_error_behavior.2.1 changesEx aiOllama _ 500 "boom" none rfl (by decide),
   generation_error_behavior.2.2.1 changesEx aiOllama _ _ rfl rfl,
   generation_error_behavior.2.2.2.1 changesEx aiOllama _ rfl (Or.inl rfl),
   generation_error_behavior.2.2.2.2 changesEx aiOllama _ "" ⟨⟨"fix"⟩, true⟩ rfl⟩

/-- C2: on the concrete repository where `feature` (commit 1) is one commit
ahead of `main` (commit 0), the target `main` tip is an ancestor of the
current `feature` tip, yet the merge-base resolution of `getBranchChanges`
returns the `feature` tip itself (commit 1) rather than `main`'s tip, and
the computed branch changes are consequently empty. -/
theorem mergeBase_resolved_to_current_tip :
    isAncestorB repoModelEx 0 1 = true ∧
    isAncestorB repoModelEx 1 0 = false ∧
    resolveMergeBase repoModelEx 1 0 = .ok 1 ∧
    (1 : Nat) ≠ 0 ∧
    getBranchChanges repoModelEx "feature" "main" = .ok ⟨[], [], ""⟩ := by
  refine ⟨by decide, by decide, by rfl, by decide, by rfl⟩
theorem getChanges_all_mainCompare (env : ChangesEnv) :
    (getChanges env).2.all isMainCompareEv = true := by
  unfold getChanges
  repeat' split <;> (try simp [isMainCompareEv])

theorem changesEv_prBaseMain (e : Ev) (h : isChangesEv e = true) : isPrBaseMainEv e = true := by
  cases e <;> simp_all [isChangesEv, isPrBaseMainEv]

theorem genEv_prBaseMain (e : Ev) (h : isGenEv e = true) : isPrBaseMainEv e = true := by
  cases e <;> simp_all [isGenEv, isPrBaseMainEv]

theorem createDraftPR_all_prBaseMain (env : PREnv) :
    (CreateDraftPR env).2.all isPrBaseMainEv = true := by
  have hch := all_imp_all _ _ _ changesEv_prBaseMain (getChanges_all_changesEv env.chEnv)
  have ht : ∀ ch, (generatePRTitle env.ai ch env.genTitle).2.all isPrBaseMainEv = true :=
    fun ch => all_imp_all _ _ _ genEv_prBaseMain (generatePRTitle_all_genEv env.ai ch env.genTitle)
  have hd : ∀ ch, (generatePRDescription env.ai ch env.genDesc).2.all isPrBaseMainEv = true :=
    fun ch =>
      all_imp_all _ _ _ genEv_prBaseMain (generatePRDescription_all_genEv env.ai ch env.genDesc)
  unfold CreateDraftPR
  repeat' split
  all_goals try simp [isPrBaseMainEv]
  all_goals first
  | (rename_i xt e tr heqGC
     have h1 := hch; rw [heqGC] at h1
     exact List.all_eq_true.mp h1)
  | (rename_i xg ch tr heqGC xt e trT heqT
     have h1 := hch; rw [heqGC] at h1
     have h2 := ht ch; rw [heqT] at h2
     exact ⟨List.all_eq_true.mp h1, List.all_eq_true.mp h2⟩)
  | (rename_i xg ch tr heqGC xt t1 trT heqT xd e trD heqD
     have h1 := hch; rw [heqGC] at h1
     have h2 := ht ch; rw [heqT] at h2
     have h3 := hd ch; rw [heqD] at h3
     exact ⟨List.all_eq_true.mp h1, List.all_eq_true.mp h2, List.all_eq_true.mp h3⟩)
  | (rename_i xg ch tr heqGC xt t1 trT heqT xd e trD heqD htok
     have h1 := hch; rw [heqGC] at h1
     have h2 := ht ch; rw [heqT] at h2
     have h3 := hd ch; rw [heqD] at h3
     exact ⟨List.all_eq_true.mp h1, List.all_eq_true.mp h2, List.all_eq_true.mp h3⟩)
  | (rename_i xg ch tr heqGC xt t1 trT heqT xd e trD heqD htok xp a heqP
     have h1 := hch; rw [heqGC] at h1
     have h2 := ht ch; rw [heqT] at h2
     have h3 := hd ch; rw [heqD] at h3
     exact ⟨List.all_eq_true.mp h1, List.all_eq_true.mp h2, List.all_eq_true.mp h3⟩)
  | (rename_i xg ch tr heqGC xt t1 trT heqT xd e trD heqD htok xp code body num heqP hcode
     have h1 := hch; rw [heqGC] at h1
     have h2 := ht ch; rw [heqT] at h2
     have h3 := hd ch; rw [heqD] at h3
     exact ⟨List.all_eq_true.mp h1, List.all_eq_true.mp h2, List.all_eq_true.mp h3⟩)
  | (rename_i xg ch tr heqGC xt t1 trT heqT xd e trD heqD htok xp code body hcode xn heqP
     have h1 := hch; rw [heqGC] at h1
     have h2 := ht ch; rw [heqT] at h2
     have h3 := hd ch; rw [heqD] at h3
     exact ⟨List.all_eq_true.mp h1, List.all_eq_true.mp h2, List.all_eq_true.mp h3⟩)
  | (rename_i xg ch tr heqGC xt t1 trT heqT xd e trD heqD htok xp code body hcode xn val heqP
     have h1 := hch; rw [heqGC] at h1
     have h2 := ht ch; rw [heqT] at h2
     have h3 := hd ch; rw [heqD] at h3
     exact ⟨List.all_eq_true.mp h1, List.all_eq_true.mp h2, List.all_eq_true.mp h3⟩)
theorem getBranchChanges_noMain (m : RepoModel) (cur : String)
    (h : m.branches.lookup "main" = none) :
    isErr (getBranchChanges m cur "main") = true := by
  unfold getBranchChanges
  rcases hcur : m.branches.lookup cur with _ | tip <;> simp [hcur, h, isErr]

theorem getChanges_err_noMain (env : ChangesEnv)
    (h : env.repoM.branches.lookup "main" = none) :
    isErr (getChanges env).1 = true := by
  unfold getChanges
  rcases hw : env.worktreeRes with e | u
  · simp [isErr]
  · rcases hs : env.statusRes with e | st
    · simp [isErr]
    · rcases hh : env.headRes with e | b
      · simp [isErr]
      · rcases hbc : getBranchChanges env.repoM b "main" with e | bc
        · simp [hbc, isErr]
        · have hx := getBranchChanges_noMain env.repoM b h
          rw [hbc] at hx
          simp [isErr] at hx

/-- C10: the integration branch is hardcoded to `main` — every branch
comparison `getChanges` performs targets `main`; every review request
`CreateDraftPR` posts carries base branch `main`; and on a dirty repository
with no local branch named `main`, `CommitChanges` stages all working-tree
changes and then fails without ever writing a commit. -/
theorem integration_branch_hardcoded_main :
    (∀ env r tr cur tgt, getChanges env = (r, tr) →
      Ev.branchCompare cur tgt ∈ tr → tgt = "main") ∧
    (∀ env r tr o rn hd b, CreateDraftPR env = (r, tr) →
      Ev.prPost o rn hd b ∈ tr → b = "main") ∧
    (∀ env ws, env.openRes = .ok () → env.worktreeRes = .ok () →
      env.statusRes = .ok ws → isCleanStatus ws = false → env.addRes = .ok () →
      env.chEnv.repoM.branches.lookup "main" = none →
      isErr (CommitChanges env).1 = true ∧ Ev.addAll ∈ (CommitChanges env).2 ∧
        Ev.commitWrite ∉ (CommitChanges env).2) := by
  refine ⟨?_, ?_, ?_⟩
  · intro env r tr cur tgt hgc hm
    have hall := getChanges_all_mainCompare env
    rw [hgc] at hall
    have := List.all_eq_true.mp hall _ hm
    simpa [isMainCompareEv] using this
  · intro env r tr o rn hd b hpr hm
    have hall := createDraftPR_all_prBaseMain env
    rw [hpr] at hall
    have := List.all_eq_true.mp hall _ hm
    simpa [isPrBaseMainEv] using this
  · intro env ws ho hw hs hcl ha hmain
    have hgcErr := getChanges_err_noMain env.chEnv hmain
    have hchAll := getChanges_all_changesEv env.chEnv
    rcases hgc : getChanges env.chEnv with ⟨rc, tr⟩
    rw [hgc] at hgcErr hchAll
    rcases rc with e | ch
    · have hcc : CommitChanges env = (.error e, [.wstatusQuery, .addAll] ++ tr) := by
        unfold CommitChanges
        rw [ho, hw, hs, ha, hgc]
        simp [hcl]
      rw [hcc]
      refine ⟨rfl, by simp, ?_⟩
      have hnm : Ev.commitWrite ∉ tr :=
        not_mem_of_all tr isChangesEv .commitWrite hchAll rfl
      simp [hnm]
    · simp [isErr] at hgcErr

theorem integration_branch_hardcoded_main_witness :
    (Ev.branchCompare "feature" "main" ∈ (getChanges chEnvOk).2 ∧ ("main" : String) = "main") ∧
    Ev.prPost "acme" "widgets" "feature" "main" ∈ (CreateDraftPR prEnvOk).2 ∧
    (isErr (CommitChanges cEnvNoMain).1 = true ∧ Ev.addAll ∈ (CommitChanges cEnvNoMain).2 ∧
      Ev.commitWrite ∉ (CommitChanges cEnvNoMain).2) :=
  ⟨⟨by decide,
    integration_branch_hardcoded_main.1 chEnvOk (getChanges chEnvOk).1 (getChanges chEnvOk).2
      "feature" "main" rfl (by decide)⟩,
   by decide,
   integration_branch_hardcoded_main.2.2 cEnvNoMain stDirty rfl rfl rfl rfl rfl rfl⟩
/-- C3 counterexample: running `CreateDraftPR` against the remote URL
`git@example.com:acme/widgets.git` (the spec's own test vector), the review
request is posted for owner `git@example.com:acme`, not `acme`. -/
theorem createDraftPR_example_com_owner :
    prOwners (CreateDraftPR prEnvEx3).2 = ["git@example.com:acme"] ∧
    ("git@example.com:acme" : String) ≠ "acme" := by
  refine ⟨by decide, by decide⟩

theorem goHasPrefix_append (p rest : List Char) : goHasPrefix p (p ++ rest) = true := by
  induction p with
  | nil => rfl
  | cons c cs ih => simp [goHasPrefix, ih]

theorem goTrimPrefixL_append (p rest : List Char) : goTrimPrefixL p (p ++ rest) = rest := by
  simp [goTrimPrefixL, goHasPrefix_append, List.drop_left]

theorem goContains_of_hasPrefix (sub s : List Char) (h : goHasPrefix sub s = true) :
    goContains sub s = true := by
  cases s with
  | nil => simpa [goContains] using h
  | cons c rest => simp [goContains, h]

theorem goContains_append (p rest : List Char) : goContains p (p ++ rest) = true :=
  goContains_of_hasPrefix p (p ++ rest) (goHasPrefix_append p rest)

theorem splitOnChar_not_mem (sep : Char) (xs : List Char) (h : sep ∉ xs) :
    splitOnChar sep xs = [xs] := by
  induction xs with
  | nil => rfl
  | cons c rest ih =>
    have hc : ¬c = sep := fun hh => h (by simp [hh])
    have hr : sep ∉ rest := fun hh => h (by simp [hh])
    simp [splitOnChar, hc, ih hr]

theorem splitOnChar_append (sep : Char) (xs ys : List Char) (h : sep ∉ xs) :
    splitOnChar sep (xs ++ sep :: ys) = xs :: splitOnChar sep ys := by
  induction xs with
  | nil => simp [splitOnChar]
  | cons c rest ih =>
    have hc : ¬c = sep := fun hh => h (by simp [hh])
    have hr : sep ∉ rest := fun hh => h (by simp [hh])
    simp [splitOnChar, hc, ih hr]

theorem goHasSuffix_append (suf s : List Char) : goHasSuffix suf (s ++ suf) = true := by
  simp [goHasSuffix, List.reverse_append, goHasPrefix_append]

theorem goTrimSuffixL_append (suf s : List Char) : goTrimSuffixL suf (s ++ suf) = s := by
  simp [goTrimSuffixL, goHasSuffix_append]

/-- C3 amended: the owner/repo extraction is correct exactly for github.com
URLs — for an SSH URL `git@github.com:owner/repo.git` and for an HTTPS URL
`https://github.com/owner/repo.git` (owner and repo slash-free, the HTTPS
URL not containing the SSH marker) it yields `(owner, repo)` with the
`.git` suffix stripped; a non-github.com host such as
`git@example.com:acme/widgets.git` is not resolved to its own owner. -/
theorem extractOwnerRepo_github (owner rep : String)
    (h1 : '/' ∉ owner.data) (h2 : '/' ∉ rep.data)
    (h3 : goContains sshMarker (httpsMarker ++ owner.data ++ '/' :: (rep.data ++ dotGit)) =
      false) :
    extractOwnerRepo ⟨sshMarker ++ owner.data ++ '/' :: (rep.data ++ dotGit)⟩ = (owner, rep) ∧
    extractOwnerRepo ⟨httpsMarker ++ owner.data ++ '/' :: (rep.data ++ dotGit)⟩ =
      (owner, rep) := by
  have hng : '/' ∉ dotGit := by decide
  have hrg : '/' ∉ rep.data ++ dotGit := by
    intro hm
    rcases List.mem_append.mp hm with hm | hm
    · exact h2 hm
    · exact hng hm
  constructor
  · unfold extractOwnerRepo
    have hc : goContains sshMarker (sshMarker ++ owner.data ++ '/' :: (rep.data ++ dotGit)) =
        true := by
      rw [List.append_assoc]
      exact goContains_append sshMarker _
    simp only [hc, if_true]
    rw [List.append_assoc, goTrimPrefixL_append]
    rw [splitOnChar_append '/' owner.data (rep.data ++ dotGit) h1]
    rw [splitOnChar_not_mem '/' (rep.data ++ dotGit) hrg]
    simp [goTrimSuffixL_append]
  · unfold extractOwnerRepo
    simp only [h3, Bool.false_eq_true, if_false]
    rw [List.append_assoc, goTrimPrefixL_append]
    rw [splitOnChar_append '/' owner.data (rep.data ++ dotGit) h1]
    rw [splitOnChar_not_mem '/' (rep.data ++ dotGit) hrg]
    simp [goTrimSuffixL_append]

theorem extractOwnerRepo_github_witness :
    extractOwnerRepo "git@github.com:acme/widgets.git" = ("acme", "widgets") ∧
    extractOwnerRepo "https://github.com/acme/widgets.git" = ("acme", "widgets") :=
  ⟨(extractOwnerRepo_github "acme" "widgets" (by decide) (by decide) (by decide)).1,
   (extractOwnerRepo_github "acme" "widgets" (by decide) (by decide) (by decide)).2⟩
theorem changesEv_noLock (e : Ev) (h : isChangesEv e = true) : isLockOrUpdateEv e = false :=
  (changesEv_props e h).2.2.2

theorem genEv_noLock (e : Ev) (h : isGenEv e = true) : isLockOrUpdateEv e = false :=
  (genEv_props e h).2.2.2

theorem commitChanges_noLock (env : CommitEnv) : noLockEvs (CommitChanges env).2 = true := by
  have hch := getChanges_all_changesEv env.chEnv
  unfold CommitChanges
  repeat' split
  all_goals try simp [noLockEvs, isLockOrUpdateEv]
  all_goals first
  | (rename_i xg e tr heqGC
     have h1 := hch; rw [heqGC] at h1
     intro x hx
     have := List.all_eq_true.mp h1 x hx
     exact changesEv_noLock x this)
  | (rename_i xg ch tr heqGC xt e trG heqT
     have h1 := hch; rw [heqGC] at h1
     have h2 := generateCommitMessage_all_genEv env.ai ch env.gen
     rw [heqT] at h2
     constructor
     · intro x hx
       exact changesEv_noLock x (List.all_eq_true.mp h1 x hx)
     · intro x hx
       exact genEv_noLock x (List.all_eq_true.mp h2 x hx))

theorem pushChanges_noLock (env : PushEnv) : noLockEvs (PushChanges env).2 = true := by
  unfold PushChanges
  repeat' split
  all_goals simp [noLockEvs, isLockOrUpdateEv]

theorem createDraftPR_noLock (env : PREnv) : noLockEvs (CreateDraftPR env).2 = true := by
  have h := createDraftPR_all_prBaseMain env
  rw [noLockEvs, List.all_eq_true]
  intro x hx
  have hpr := List.all_eq_true.mp h x hx
  cases x <;> simp_all [isPrBaseMainEv, isLockOrUpdateEv]

theorem runLockTrace_noLock (l : List Ev) :
    ∀ (rest done : List Ev) (r : Nat), noLockEvs l = true →
      runLockTrace r done (l ++ rest) = runLockTrace r (l.reverse ++ done) rest := by
  induction l with
  | nil => intro rest done r _; simp
  | cons e t ih =>
    intro rest done r hl
    rw [noLockEvs, List.all_cons, Bool.and_eq_true] at hl
    obtain ⟨he, ht⟩ := hl
    have ht' : noLockEvs t = true := ht
    cases e <;> simp [isLockOrUpdateEv] at he <;>
      · show runLockTrace r (_ :: done) (t ++ rest) = _
        rw [ih rest _ r ht']
        simp

/-- C9: on a fully successful scheduled run (repository found, dirty
status, commit, push and draft-PR creation all succeed),
`handleScheduledTask` attempts the write lock while its own read lock is
still held (released only by defer at return); under RWMutex semantics the
execution blocks at that write-lock acquisition with one read lock held
forever, and the final last-sync/status update is never reached. -/
theorem scheduled_run_success_deadlocks (env : SchedTaskEnv) (st : RepoStatus)
    (tc tp tq : List Ev)
    (h1 : env.repoExists = true) (h2 : GetRepoStatus env.statusEnv = .ok st)
    (h3 : st.hasChanges = true)
    (h4 : CommitChanges env.commitEnv = (.ok (), tc))
    (h5 : PushChanges env.pushEnv = (.ok (), tp))
    (h6 : CreateDraftPR env.prEnv = (.ok (), tq)) :
    (handleScheduledTask env).1 = .success ∧
    execTrace (handleScheduledTask env).2 =
      .blockedAtWLock ([.rLock, .statusQuery] ++ (tc ++ tp ++ tq)) 1 ∧
    Ev.updateRepoState ∉ ([Ev.rLock, Ev.statusQuery] ++ (tc ++ tp ++ tq)) ∧
    Ev.rUnlock ∉ ([Ev.rLock, Ev.statusQuery] ++ (tc ++ tp ++ tq)) := by
  have htc : noLockEvs tc = true := by
    have := commitChanges_noLock env.commitEnv; rw [h4] at this; exact this
  have htp : noLockEvs tp = true := by
    have := pushChanges_noLock env.pushEnv; rw [h5] at this; exact this
  have htq : noLockEvs tq = true := by
    have := createDraftPR_noLock env.prEnv; rw [h6] at this; exact this
  have hall : noLockEvs (tc ++ tp ++ tq) = true := by
    rw [noLockEvs, List.all_eq_true] at htc htp htq ⊢
    intro x hx
    rcases List.mem_append.mp hx with hx | hx
    · rcases List.mem_append.mp hx with hx | hx
      · exact htc x hx
      · exact htp x hx
    · exact htq x hx
  have hrun : handleScheduledTask env =
      (.success, [.rLock, .statusQuery] ++ tc ++ tp ++ tq ++
        [.wLock, .updateRepoState, .wUnlock, .rUnlock]) := by
    unfold handleScheduledTask
    rw [h1, h2, h4, h5, h6]
    simp [h3]
  have hnot : ∀ e, isLockOrUpdateEv e = true → e ∉ (tc ++ tp ++ tq) := by
    intro e he hm
    rw [noLockEvs, List.all_eq_true] at hall
    have := hall e hm
    rw [he] at this
    simp at this
  have htrace : (handleScheduledTask env).2 =
      [Ev.rLock, Ev.statusQuery] ++ ((tc ++ tp ++ tq) ++
        [Ev.wLock, Ev.updateRepoState, Ev.wUnlock, Ev.rUnlock]) := by
    rw [hrun]
    simp
  refine ⟨by rw [hrun], ?_, ?_, ?_⟩
  · rw [htrace]
    show runLockTrace 1 [Ev.statusQuery, Ev.rLock]
      ((tc ++ tp ++ tq) ++ [Ev.wLock, Ev.updateRepoState, Ev.wUnlock, Ev.rUnlock]) = _
    rw [runLockTrace_noLock (tc ++ tp ++ tq) _ _ 1 hall]
    rw [runLockTrace]
    simp
  · rw [List.mem_append]
    rintro (hm | hm)
    · simp at hm
    · exact hnot .updateRepoState rfl hm
  · rw [List.mem_append]
    rintro (hm | hm)
    · simp at hm
    · exact hnot .rUnlock rfl hm

theorem scheduled_run_success_deadlocks_witness :
    (handleScheduledTask schedEnvOk).1 = .success ∧
    execTrace (handleScheduledTask schedEnvOk).2 =
      .blockedAtWLock ([.rLock, .statusQuery] ++ (tcEx ++ tpEx ++ tqEx)) 1 ∧
    Ev.updateRepoState ∉ ([Ev.rLock, Ev.statusQuery] ++ (tcEx ++ tpEx ++ tqEx)) ∧
    Ev.rUnlock ∉ ([Ev.rLock, Ev.statusQuery] ++ (tcEx ++ tpEx ++ tqEx)) :=
  scheduled_run_success_deadlocks schedEnvOk stEx tcEx tpEx tqEx rfl rfl rfl rfl rfl rfl
theorem findEnd_clearDone_some (l : List (String × Nat)) (t : Nat) (k : String) (v : Nat)
    (hv : t < v) (h : findEnd l k = some v) : findEnd (clearDone l t) k = some v := by
  induction l with
  | nil => simp [findEnd] at h
  | cons p rest ih =>
    obtain ⟨k', e'⟩ := p
    by_cases hk : k' = k
    · subst hk
      rw [findEnd, if_pos rfl] at h
      injection h with h
      subst h
      rw [clearDone, List.filter_cons]
      simp only [decide_eq_true_eq]
      rw [if_pos hv]
      rw [findEnd, if_pos rfl]
    · rw [findEnd, if_neg hk] at h
      rw [clearDone, List.filter_cons]
      by_cases hkeep : t < e'
      · simp only [decide_eq_true_eq]
        rw [if_pos hkeep]
        rw [findEnd, if_neg hk]
        exact ih h
      · simp only [decide_eq_true_eq]
        rw [if_neg hkeep]
        exact ih h

theorem findEnd_clearDone_none (l : List (String × Nat)) (t : Nat) (k : String) (v : Nat)
    (hnone : findEnd (clearDone l t) k = none) (h : findEnd l k = some v) : v ≤ t := by
  induction l with
  | nil => simp [findEnd] at h
  | cons p rest ih =>
    obtain ⟨k', e'⟩ := p
    by_cases hk : k' = k
    · subst hk
      rw [findEnd, if_pos rfl] at h
      injection h with h
      by_cases hkeep : t < e'
      · rw [clearDone, List.filter_cons] at hnone
        simp only [decide_eq_true_eq] at hnone
        rw [if_pos hkeep] at hnone
        rw [findEnd, if_pos rfl] at hnone
        exact absurd hnone (by simp)
      · rw [← h]
        exact Nat.le_of_not_lt hkeep
    · rw [findEnd, if_neg hk] at h
      rw [clearDone, List.filter_cons] at hnone
      by_cases hkeep : t < e'
      · simp only [decide_eq_true_eq] at hnone
        rw [if_pos hkeep] at hnone
        rw [findEnd, if_neg hk] at hnone
        exact ih hnone h
      · simp only [decide_eq_true_eq] at hnone
        rw [if_neg hkeep] at hnone
        exact ih hnone h

theorem stepSched_inv (s : SchedState) (e : DueEvent) (h : SchedInv s) :
    SchedInv (stepSched s e) := by
  obtain ⟨hno, hstart, hstop⟩ := h
  have hts : s.time ≤ max s.time e.due := le_max_left _ _
  unfold stepSched
  cases hf : findEnd (clearDone s.running (max s.time e.due)) e.key with
  | some v =>
    refine ⟨hno, ?_, ?_⟩
    · intro f hm
      exact le_trans (hstart f hm) hts
    · intro f hm
      rcases hstop f hm with h1 | h1
      · exact Or.inl (le_trans h1 hts)
      · by_cases hlt : max s.time e.due < f.stop
        · exact Or.inr (findEnd_clearDone_some _ _ _ _ hlt h1)
        · exact Or.inl (Nat.le_of_not_lt hlt)
  | none =>
    have hend : ∀ f ∈ s.fired, f.key = e.key → f.stop ≤ max s.time e.due := by
      intro f hm hk
      rcases hstop f hm with h1 | h1
      · exact le_trans h1 hts
      · by_cases hlt : max s.time e.due < f.stop
        · exfalso
          have hsome := findEnd_clearDone_some s.running (max s.time e.due) f.key f.stop hlt h1
          rw [hk, hf] at hsome
          exact absurd hsome (by simp)
        · exact Nat.le_of_not_lt hlt
    refine ⟨?_, ?_, ?_⟩
    · rw [noOverlap, List.pairwise_cons]
      refine ⟨?_, hno⟩
      intro g hg hk
      exact Or.inr (hend g hg hk.symm)
    · intro f hm
      rcases List.mem_cons.mp hm with rfl | hm'
      · exact le_refl _
      · exact le_trans (hstart f hm') hts
    · intro f hm
      rcases List.mem_cons.mp hm with rfl | hm'
      · right
        rw [findEnd, if_pos rfl]
      · by_cases hk : f.key = e.key
        · exact Or.inl (hend f hm' hk)
        · rcases hstop f hm' with h1 | h1
          · exact Or.inl (le_trans h1 hts)
          · by_cases hlt : max s.time e.due < f.stop
            · refine Or.inr ?_
              rw [findEnd, if_neg (fun hh => hk hh.symm)]
              exact findEnd_clearDone_some _ _ _ _ hlt h1
            · exact Or.inl (Nat.le_of_not_lt hlt)

theorem foldl_stepSched_inv (evs : List DueEvent) (s : SchedState) (h : SchedInv s) :
    SchedInv (evs.foldl stepSched s) := by
  induction evs generalizing s with
  | nil => exact h
  | cons e rest ih => exact ih _ (stepSched_inv s e h)

/-- C1 (the scheduler package is not in the sources; modelled from the
spec): for every sequence of due observations, the recorded firings of any
single key are pairwise disjoint in time — a firing becoming due while a
prior firing of its key is still running is recorded as skipped, leaving
the firing record unchanged, for all job durations. -/
theorem scheduler_no_overlap_per_key :
    (∀ evs : List DueEvent, noOverlap (runSched evs).fired) ∧
    (∀ (s : SchedState) (e : DueEvent) (v : Nat),
      findEnd (clearDone s.running (max s.time e.due)) e.key = some v →
      (stepSched s e).fired = s.fired ∧
      (stepSched s e).skipped = (e.key, max s.time e.due) :: s.skipped) := by
  constructor
  · intro evs
    have hinit : SchedInv ⟨0, [], [], []⟩ := by
      refine ⟨List.Pairwise.nil, ?_, ?_⟩ <;> intro f hm <;> simp at hm
    exact (foldl_stepSched_inv evs _ hinit).1
  · intro s e v hf
    unfold stepSched
    rw [hf]
    exact ⟨rfl, rfl⟩

theorem scheduler_no_overlap_per_key_witness :
    noOverlap (runSched dueEvsEx).fired ∧
    (stepSched schedStateEx dueEvEx).fired = schedStateEx.fired ∧
    (stepSched schedStateEx dueEvEx).skipped = ("k", 5) :: schedStateEx.skipped :=
  ⟨scheduler_no_overlap_per_key.1 dueEvsEx,
   (scheduler_no_overlap_per_key.2 schedStateEx dueEvEx 10 (by decide)).1,
   (scheduler_no_overlap_per_key.2 schedStateEx dueEvEx 10 (by decide)).2⟩
